import Mathlib

/-!
Verification of the TMDB caching layer of `convert-wordpress-posts`.

The source is a Node.js module (`tmdb_cache`) plus a driver script
(`convert_wordpress_posts.js`).  We shallowly embed the cache store, the
metadata / configuration / poster resolvers and the per-post driver loop.

Modelling conventions:
* The filesystem is a map from paths to `(content, mtime)`; `fs.stat` /
  `fs.readFile` / `fs.writeFile` become lookups and updates of that map.
* Times are integer milliseconds (`moment` arithmetic is exact integer
  arithmetic on milliseconds here).
* `JSON.stringify` / `JSON.parse` are modelled by an executable serializer
  and recursive-descent reader over a JSON value type.  Numbers are
  modelled as integers (the cached TMDB payload fields exercised by the
  claims are strings, lists and objects); the reader accepts the grammar
  produced by the serializer plus interstitial whitespace.
* Asynchronous callback bodies are modelled as event traces in the order
  the JavaScript event loop runs them: a callback runs to completion
  before any of the asynchronous continuations it started (such as a
  background `fs.writeFile` completion) can run.  A promise settles with
  the first `resolve`/`reject` call in its trace; later calls are no-ops.
* JavaScript `undefined` is `Option.none` / `JsValue.undef`; the falsy
  `tmdb_id` sentinel `false` is `Option.none`.
-/

set_option linter.unusedVariables false

namespace ConvertWP

/-- JSON values, as produced by `JSON.parse` and consumed by
`JSON.stringify` in the source.  Numbers are modelled as integers. -/
inductive Json where
  | null
  | bool (b : Bool)
  | num (n : Int)
  | str (s : String)
  | arr (elems : List Json)
  | obj (fields : List (String × Json))

/-- Decimal digit character for a digit value (values above nine clamp
to the digit nine; callers only pass values below ten). -/
def digitChar (d : Nat) : Char :=
  if d = 0 then '0' else if d = 1 then '1' else if d = 2 then '2'
  else if d = 3 then '3' else if d = 4 then '4' else if d = 5 then '5'
  else if d = 6 then '6' else if d = 7 then '7' else if d = 8 then '8'
  else '9'

/-- Lower-case hexadecimal digit character, as emitted by
`JSON.stringify` in `\u....` escapes. -/
def hexDigitChar (d : Nat) : Char :=
  if d < 10 then digitChar d
  else if d = 10 then 'a' else if d = 11 then 'b' else if d = 12 then 'c'
  else if d = 13 then 'd' else if d = 14 then 'e' else 'f'

/-- Decimal digit list (most significant first) of a natural number,
as printed by JavaScript for integral numbers. -/
def natToDigits (n : Nat) : List Char :=
  if n = 0 then ['0'] else (Nat.digits 10 n).reverse.map digitChar

/-- Decimal printing of an integer, as JavaScript prints integral
numbers (a leading minus sign for negatives). -/
def intToChars (n : Int) : List Char :=
  if n < 0 then '-' :: natToDigits n.natAbs else natToDigits n.toNat

/-- The escape sequence `JSON.stringify` emits for one character of a
string: `\"`, `\\`, the short escapes for backspace, tab, newline,
form feed and carriage return, `\u00..` for the remaining control
characters, and the character itself otherwise. -/
def escapeChar (c : Char) : List Char :=
  if c = '"' then ['\\', '"']
  else if c = '\\' then ['\\', '\\']
  else if c = '\x08' then ['\\', 'b']
  else if c = '\t' then ['\\', 't']
  else if c = '\n' then ['\\', 'n']
  else if c = '\x0c' then ['\\', 'f']
  else if c = '\r' then ['\\', 'r']
  else if c.toNat < 32 then
    ['\\', 'u', '0', '0', hexDigitChar (c.toNat / 16), hexDigitChar (c.toNat % 16)]
  else [c]

/-- Escaped body of a JSON string literal. -/
def escapeString : List Char → List Char
  | [] => []
  | c :: cs => escapeChar c ++ escapeString cs

/-- A complete JSON string literal, quotes included. -/
def strChars (s : String) : List Char :=
  '"' :: (escapeString s.data ++ ['"'])

mutual

/-- Characters of `JSON.stringify` applied to a JSON value. -/
def Json.out : Json → List Char
  | .num n => intToChars n
  | .str s => strChars s
  | .arr [] => ['[', ']']
  | .arr (x :: xs) => '[' :: (Json.out x ++ Json.outElems xs)
  | .obj [] => ['\x7b', '\x7d']
  | .obj (f :: fs) => '\x7b' :: (Json.memberChars f ++ Json.outMembers fs)
  | .null => "null".data
  | .bool b => if b then "true".data else "false".data

/-- Remaining array elements after the first, each preceded by a comma,
closed by a bracket. -/
def Json.outElems : List Json → List Char
  | [] => [']']
  | x :: xs => ',' :: (Json.out x ++ Json.outElems xs)

/-- One object member: quoted key, colon, value. -/
def Json.memberChars : String × Json → List Char
  | (k, v) => strChars k ++ (':' :: Json.out v)

/-- Remaining object members after the first, each preceded by a comma,
closed by a brace. -/
def Json.outMembers : List (String × Json) → List Char
  | [] => ['\x7d']
  | f :: fs => ',' :: (Json.memberChars f ++ Json.outMembers fs)

end

/-- `JSON.stringify`. -/
def Json.stringify (j : Json) : String :=
  String.mk (Json.out j)

/-- JSON whitespace. -/
def isWs (c : Char) : Bool :=
  c = ' ' || c = '\t' || c = '\n' || c = '\r'

/-- Skip leading JSON whitespace. -/
def skipWs (cs : List Char) : List Char :=
  cs.dropWhile isWs

/-- Decimal digit character test. -/
def isDigit (c : Char) : Bool :=
  48 ≤ c.toNat && c.toNat ≤ 57

/-- Split a character list into its leading run of decimal digits and
the remainder. -/
def takeDigits : List Char → List Char × List Char
  | [] => ([], [])
  | c :: cs =>
    if isDigit c then
      let p := takeDigits cs
      (c :: p.1, p.2)
    else ([], c :: cs)

/-- Numeric value of a most-significant-first digit list. -/
def digitsVal (ds : List Char) : Nat :=
  ds.foldl (fun a c => a * 10 + (c.toNat - 48)) 0

/-- Value of a hexadecimal digit character (either case), as accepted
in `\u....` escapes by `JSON.parse`. -/
def hexVal (c : Char) : Option Nat :=
  if 48 ≤ c.toNat ∧ c.toNat ≤ 57 then some (c.toNat - 48)
  else if 97 ≤ c.toNat ∧ c.toNat ≤ 102 then some (c.toNat - 87)
  else if 65 ≤ c.toNat ∧ c.toNat ≤ 70 then some (c.toNat - 55)
  else none

/-- Decode one single-character escape sequence (the character after
the backslash). -/
def simpleEscape (e : Char) : Option Char :=
  if e = '"' then some '"'
  else if e = '\\' then some '\\'
  else if e = '/' then some '/'
  else if e = 'b' then some '\x08'
  else if e = 't' then some '\t'
  else if e = 'n' then some '\n'
  else if e = 'f' then some '\x0c'
  else if e = 'r' then some '\r'
  else none

/-- Decode the four hex digits of a `\u....` escape. -/
def hexQuad (h1 h2 h3 h4 : Char) : Option Char :=
  match hexVal h1, hexVal h2, hexVal h3, hexVal h4 with
  | some a, some b, some c, some d => some (Char.ofNat (4096 * a + 256 * b + 16 * c + d))
  | _, _, _, _ => none

/-- Decode the escape sequence starting just after a backslash,
returning the decoded character and the remaining input. -/
def unescapeAt : List Char → Option (Char × List Char)
  | [] => none
  | e :: r =>
    if e = 'u' then
      match r with
      | h1 :: h2 :: h3 :: h4 :: r2 =>
        match hexQuad h1 h2 h3 h4 with
        | some ch => some (ch, r2)
        | none => none
      | _ => none
    else
      match simpleEscape e with
      | some ch => some (ch, r)
      | none => none

/-- Prepend a decoded character to the result of reading the remainder
of a string body. -/
def consFirst (ch : Char) (o : Option (List Char × List Char)) :
    Option (List Char × List Char) :=
  match o with
  | some p => some (ch :: p.1, p.2)
  | none => none

/-- Read the body of a JSON string literal (the opening quote already
consumed), decoding escape sequences, up to and including the closing
quote.  Returns the decoded characters and the remaining input.  The
fuel argument only bounds recursion depth; callers supply enough for
any input.  Surrogate-pair recombination of `\u` escapes is not
modelled. -/
def parseStringBody : Nat → List Char → Option (List Char × List Char)
  | 0, _ => none
  | _ + 1, [] => none
  | fuel + 1, c :: rest =>
    if c = '"' then some ([], rest)
    else if c = '\\' then
      match unescapeAt rest with
      | none => none
      | some er => consFirst er.1 (parseStringBody fuel er.2)
    else consFirst c (parseStringBody fuel rest)

mutual

/-- Read one JSON value (fuel-indexed; the top-level reader supplies
enough fuel for any input it is given).  Accepts leading whitespace,
the literals, string literals, integral numbers, arrays and objects. -/
def parseValue : Nat → List Char → Option (Json × List Char)
  | 0, _ => none
  | fuel + 1, cs =>
    match skipWs cs with
    | [] => none
    | c :: rest =>
      if c = 'n' then
        match rest with
        | 'u' :: 'l' :: 'l' :: r => some (.null, r)
        | _ => none
      else if c = 't' then
        match rest with
        | 'r' :: 'u' :: 'e' :: r => some (.bool true, r)
        | _ => none
      else if c = 'f' then
        match rest with
        | 'a' :: 'l' :: 's' :: 'e' :: r => some (.bool false, r)
        | _ => none
      else if c = '"' then
        match parseStringBody (rest.length + 1) rest with
        | some p => some (.str (String.mk p.1), p.2)
        | none => none
      else if c = '[' then
        match skipWs rest with
        | ']' :: r => some (.arr [], r)
        | cs2 =>
          match parseElems fuel cs2 with
          | some p => some (.arr p.1, p.2)
          | none => none
      else if c = '\x7b' then
        match skipWs rest with
        | '\x7d' :: r => some (.obj [], r)
        | cs2 =>
          match parseMembers fuel cs2 with
          | some p => some (.obj p.1, p.2)
          | none => none
      else if c = '-' then
        match takeDigits rest with
        | ([], _) => none
        | (ds, r) => some (.num (-(digitsVal ds : Int)), r)
      else if isDigit c then
        some (.num (digitsVal (takeDigits (c :: rest)).1), (takeDigits (c :: rest)).2)
      else none

/-- Read the elements of a non-empty array, up to and including the
closing bracket. -/
def parseElems : Nat → List Char → Option (List Json × List Char)
  | 0, _ => none
  | fuel + 1, cs =>
    match parseValue fuel cs with
    | none => none
    | some vp =>
      match skipWs vp.2 with
      | ',' :: r2 =>
        match parseElems fuel r2 with
        | some p => some (vp.1 :: p.1, p.2)
        | none => none
      | ']' :: r2 => some ([vp.1], r2)
      | _ => none

/-- Read the members of a non-empty object, up to and including the
closing brace. -/
def parseMembers : Nat → List Char → Option (List (String × Json) × List Char)
  | 0, _ => none
  | fuel + 1, cs =>
    match skipWs cs with
    | [] => none
    | c :: rest =>
      if c = '"' then
        match parseStringBody (rest.length + 1) rest with
        | none => none
        | some kp =>
          match skipWs kp.2 with
          | ':' :: r1 =>
            match parseValue fuel r1 with
            | none => none
            | some vp =>
              match skipWs vp.2 with
              | ',' :: r3 =>
                match parseMembers fuel r3 with
                | some p => some ((String.mk kp.1, vp.1) :: p.1, p.2)
                | none => none
              | '\x7d' :: r3 => some ([(String.mk kp.1, vp.1)], r3)
              | _ => none
          | _ => none
      else none

end

/-- `JSON.parse`: read one value, allow trailing whitespace, reject
trailing garbage (returns `none` where `JSON.parse` throws). -/
def Json.parse (s : String) : Option Json :=
  match parseValue (s.data.length + 1) s.data with
  | some p =>
    match skipWs p.2 with
    | [] => some p.1
    | _ => none
  | none => none

/-! ### Round trip of the number printer and reader -/

theorem digitChar_toNat (d : Nat) (h : d < 10) : (digitChar d).toNat = 48 + d := by
  unfold digitChar
  split_ifs with h0 h1 h2 h3 h4 h5 h6 h7 h8 <;> subst_vars <;>
    first
      | rfl
      | (have h9 : d = 9 := by omega
         subst h9
         rfl)

theorem isDigit_digitChar (d : Nat) : isDigit (digitChar d) = true := by
  unfold digitChar
  split_ifs <;> decide

theorem digitsVal_append_one (xs : List Char) (c : Char) :
    digitsVal (xs ++ [c]) = digitsVal xs * 10 + (c.toNat - 48) := by
  unfold digitsVal
  rw [List.foldl_append]
  rfl

theorem digitsVal_rev_map (l : List Nat) (h : ∀ d ∈ l, d < 10) :
    digitsVal (l.reverse.map digitChar) = Nat.ofDigits 10 l := by
  induction l with
  | nil => rfl
  | cons d tl ih =>
    have hd : d < 10 := h d (by simp)
    have htl : ∀ x ∈ tl, x < 10 := fun x hx => h x (by simp [hx])
    rw [List.reverse_cons, List.map_append, List.map_cons, List.map_nil,
      digitsVal_append_one, ih htl, Nat.ofDigits_cons, digitChar_toNat d hd]
    omega

theorem digitsVal_natToDigits (n : Nat) : digitsVal (natToDigits n) = n := by
  unfold natToDigits
  by_cases h : n = 0
  · subst h; rfl
  · rw [if_neg h, digitsVal_rev_map _ (fun d hd => Nat.digits_lt_base (by omega) hd),
      Nat.ofDigits_digits]

theorem natToDigits_all_digits (n : Nat) : ∀ c ∈ natToDigits n, isDigit c = true := by
  unfold natToDigits
  by_cases h : n = 0
  · subst h; intro c hc; simp at hc; subst hc; decide
  · rw [if_neg h]
    intro c hc
    simp only [List.mem_map, List.mem_reverse] at hc
    obtain ⟨d, _, rfl⟩ := hc
    exact isDigit_digitChar d

theorem natToDigits_ne_nil (n : Nat) : natToDigits n ≠ [] := by
  unfold natToDigits
  by_cases h : n = 0
  · subst h; simp
  · rw [if_neg h]
    simp [Nat.digits_ne_nil_iff_ne_zero, h]

/-- The character after a printed run of digits, if any, is constrained
not to be a digit itself. -/
def headNotDigit (cs : List Char) : Prop :=
  match cs with
  | [] => True
  | c :: _ => isDigit c = false

theorem takeDigits_spec (ds rest : List Char) (hds : ∀ c ∈ ds, isDigit c = true)
    (hrest : headNotDigit rest) : takeDigits (ds ++ rest) = (ds, rest) := by
  induction ds with
  | nil =>
    cases rest with
    | nil => rfl
    | cons r t =>
      simp only [headNotDigit] at hrest
      simp [takeDigits, hrest]
  | cons c cs ih =>
    have hc : isDigit c = true := hds c (by simp)
    have hcs : ∀ x ∈ cs, isDigit x = true := fun x hx => hds x (by simp [hx])
    simp [takeDigits, hc, ih hcs]

/-! ### Round trip of the string-literal printer and reader -/

theorem hexVal_hexDigitChar (d : Nat) (h : d < 16) : hexVal (hexDigitChar d) = some d := by
  unfold hexDigitChar
  by_cases h10 : d < 10
  · rw [if_pos h10]
    unfold hexVal
    rw [digitChar_toNat d h10, if_pos (by omega)]
    congr 1
    omega
  · rw [if_neg h10]
    split_ifs with ha hb hc hd2 he <;> subst_vars <;>
      first
        | decide
        | (have h15 : d = 15 := by omega
           subst h15
           decide)

theorem parseStringBody_escape (s : List Char) : ∀ (fuel : Nat) (rest : List Char),
    s.length < fuel →
    parseStringBody fuel (escapeString s ++ ('"' :: rest)) = some (s, rest) := by
  induction s with
  | nil =>
    intro fuel rest hfuel
    match fuel with
    | f + 1 => simp [escapeString, parseStringBody]
  | cons c cs ih =>
    intro fuel rest hfuel
    match fuel with
    | f + 1 =>
      have hf : cs.length < f := by
        simp only [List.length_cons] at hfuel
        omega
      show parseStringBody (f + 1) ((escapeChar c ++ escapeString cs) ++ ('"' :: rest)) =
        some (c :: cs, rest)
      rw [List.append_assoc]
      unfold escapeChar
      split_ifs with h1 h2 h3 h4 h5 h6 h7 h8
      · subst h1; simp [parseStringBody, unescapeAt, simpleEscape, consFirst, ih f rest hf]
      · subst h2; simp [parseStringBody, unescapeAt, simpleEscape, consFirst, ih f rest hf]
      · subst h3; simp [parseStringBody, unescapeAt, simpleEscape, consFirst, ih f rest hf]
      · subst h4; simp [parseStringBody, unescapeAt, simpleEscape, consFirst, ih f rest hf]
      · subst h5; simp [parseStringBody, unescapeAt, simpleEscape, consFirst, ih f rest hf]
      · subst h6; simp [parseStringBody, unescapeAt, simpleEscape, consFirst, ih f rest hf]
      · subst h7; simp [parseStringBody, unescapeAt, simpleEscape, consFirst, ih f rest hf]
      · have hdiv : c.toNat / 16 < 16 := by omega
        have hmod : c.toNat % 16 < 16 := by omega
        have harg : 4096 * 0 + 256 * 0 + 16 * (c.toNat / 16) + c.toNat % 16 = c.toNat := by
          omega
        have harg2 : 16 * (c.toNat / 16) + c.toNat % 16 = c.toNat := by omega
        have h0 : hexVal '0' = some 0 := by decide
        simp [parseStringBody, unescapeAt, hexQuad, consFirst, h0,
          hexVal_hexDigitChar _ hdiv, hexVal_hexDigitChar _ hmod, harg, harg2, ih f rest hf]
      · simp [parseStringBody, h1, h2, consFirst, ih f rest hf]

/-! ### Round trip of the full value printer and reader -/

theorem escapeString_length (s : List Char) : s.length ≤ (escapeString s).length := by
  induction s with
  | nil => simp [escapeString]
  | cons c cs ih =>
    have : 1 ≤ (escapeChar c).length := by
      unfold escapeChar
      split_ifs <;> simp
    simp only [escapeString, List.length_append, List.length_cons]
    omega

theorem skipWs_cons (c : Char) (t : List Char) (h : isWs c = false) :
    skipWs (c :: t) = c :: t := by
  simp [skipWs, List.dropWhile, h]

theorem digit_char_facts (c : Char) (h : isDigit c = true) :
    c ≠ 'n' ∧ c ≠ 't' ∧ c ≠ 'f' ∧ c ≠ '"' ∧ c ≠ '[' ∧ c ≠ '\x7b' ∧ c ≠ '-' ∧
      isWs c = false ∧ c ≠ ']' := by
  refine ⟨?_, ?_, ?_, ?_, ?_, ?_, ?_, ?_, ?_⟩
  · intro heq; subst heq; exact absurd h (by decide)
  · intro heq; subst heq; exact absurd h (by decide)
  · intro heq; subst heq; exact absurd h (by decide)
  · intro heq; subst heq; exact absurd h (by decide)
  · intro heq; subst heq; exact absurd h (by decide)
  · intro heq; subst heq; exact absurd h (by decide)
  · intro heq; subst heq; exact absurd h (by decide)
  · by_contra hw
    have hw2 : isWs c = true := by
      cases hws : isWs c
      · exact absurd hws hw
      · rfl
    simp only [isWs, Bool.or_eq_true, decide_eq_true_eq] at hw2
    rcases hw2 with ((h1 | h1) | h1) | h1 <;> (subst h1; exact absurd h (by decide))
  · intro heq; subst heq; exact absurd h (by decide)

theorem natToDigits_cons (n : Nat) :
    ∃ c t, natToDigits n = c :: t ∧ isDigit c = true := by
  rcases hn : natToDigits n with _ | ⟨c, t⟩
  · exact absurd hn (natToDigits_ne_nil n)
  · exact ⟨c, t, rfl, natToDigits_all_digits n c (by rw [hn]; simp)⟩

theorem out_cons (v : Json) :
    ∃ c t, Json.out v = c :: t ∧ isWs c = false ∧ c ≠ ']' := by
  cases v with
  | null => exact ⟨'n', _, rfl, by decide, by decide⟩
  | bool b => cases b with
    | true => exact ⟨'t', _, rfl, by decide, by decide⟩
    | false => exact ⟨'f', _, rfl, by decide, by decide⟩
  | num n =>
    show ∃ c t, intToChars n = c :: t ∧ _
    unfold intToChars
    by_cases hn : n < 0
    · rw [if_pos hn]
      exact ⟨'-', _, rfl, by decide, by decide⟩
    · rw [if_neg hn]
      obtain ⟨c, t, hct, hd⟩ := natToDigits_cons n.toNat
      obtain ⟨_, _, _, _, _, _, _, hws, hrb⟩ := digit_char_facts c hd
      exact ⟨c, t, hct, hws, hrb⟩
  | str s => exact ⟨'"', _, rfl, by decide, by decide⟩
  | arr elems => cases elems with
    | nil => exact ⟨'[', _, rfl, by decide, by decide⟩
    | cons x xs => exact ⟨'[', _, rfl, by decide, by decide⟩
  | obj fields => cases fields with
    | nil => exact ⟨'\x7b', _, rfl, by decide, by decide⟩
    | cons f fs => exact ⟨'\x7b', _, rfl, by decide, by decide⟩

theorem headNotDigit_outElems (xs : List Json) (rest : List Char) :
    headNotDigit (Json.outElems xs ++ rest) := by
  cases xs <;> simp [Json.outElems, headNotDigit] <;> decide

theorem headNotDigit_outMembers (fs : List (String × Json)) (rest : List Char) :
    headNotDigit (Json.outMembers fs ++ rest) := by
  cases fs <;> simp [Json.outMembers, headNotDigit] <;> decide

mutual

/-- Fuel measure for the reader: enough fuel to read the printed form
of a value. -/
def Json.mval : Json → Nat
  | .arr [] => 1
  | .arr (x :: xs) => 1 + Json.melems (x :: xs)
  | .obj [] => 1
  | .obj (f :: fs) => 1 + Json.mmems (f :: fs)
  | _ => 1

/-- Fuel measure for reading the elements of a non-empty array. -/
def Json.melems : List Json → Nat
  | [] => 0
  | x :: xs => 1 + Json.mval x + Json.melems xs

/-- Fuel measure for reading the members of a non-empty object. -/
def Json.mmems : List (String × Json) → Nat
  | [] => 0
  | f :: fs => 1 + Json.mval f.2 + Json.mmems fs

end

theorem mval_pos (v : Json) : 1 ≤ Json.mval v := by
  cases v with
  | arr elems => cases elems <;> simp [Json.mval]
  | obj fields => cases fields <;> simp [Json.mval]
  | null => simp [Json.mval]
  | bool b => simp [Json.mval]
  | num n => simp [Json.mval]
  | str s => simp [Json.mval]

theorem parse_out_main : ∀ fuel : Nat,
    (∀ (v : Json) (rest : List Char), Json.mval v ≤ fuel → headNotDigit rest →
      parseValue fuel (Json.out v ++ rest) = some (v, rest)) ∧
    (∀ (x : Json) (xs : List Json) (rest : List Char), Json.melems (x :: xs) ≤ fuel →
      parseElems fuel (Json.out x ++ (Json.outElems xs ++ rest)) = some (x :: xs, rest)) ∧
    (∀ (k : String) (v : Json) (fs : List (String × Json)) (rest : List Char),
      Json.mmems ((k, v) :: fs) ≤ fuel →
      parseMembers fuel (Json.memberChars (k, v) ++ (Json.outMembers fs ++ rest)) =
        some ((k, v) :: fs, rest)) := by
  intro fuel
  induction fuel with
  | zero =>
    refine ⟨?_, ?_, ?_⟩
    · intro v rest hm _
      exact absurd hm (by have := mval_pos v; omega)
    · intro x xs rest hm
      simp [Json.melems] at hm
    · intro k v fs rest hm
      simp [Json.mmems] at hm
  | succ f ih =>
    obtain ⟨ihV, ihE, ihM⟩ := ih
    refine ⟨?_, ?_, ?_⟩
    · intro v rest hm hrest
      cases v with
      | null => simp [Json.out, parseValue, skipWs, List.dropWhile, isWs]
      | bool b =>
        cases b <;> simp [Json.out, parseValue, skipWs, List.dropWhile, isWs]
      | num n =>
        by_cases hn : n < 0
        · have habs := takeDigits_spec (natToDigits n.natAbs) rest
            (natToDigits_all_digits _) hrest
          obtain ⟨c, t, hct, hd⟩ := natToDigits_cons n.natAbs
          simp only [Json.out, intToChars, if_pos hn, List.cons_append]
          simp only [parseValue]
          rw [skipWs_cons '-' _ (by decide)]
          simp
          rw [habs, hct]
          simp only []
          rw [← hct, digitsVal_natToDigits]
          have hval : -((n.natAbs : Nat) : Int) = n := by omega
          rw [hval]
        · obtain ⟨c, t, hct, hd⟩ := natToDigits_cons n.toNat
          obtain ⟨hn1, hn2, hn3, hn4, hn5, hn6, hn7, hws, hrb⟩ := digit_char_facts c hd
          simp only [Json.out, intToChars, if_neg hn]
          rw [hct, List.cons_append]
          simp only [parseValue]
          rw [skipWs_cons c _ hws]
          simp [hn1, hn2, hn3, hn4, hn5, hn6, hn7, hd]
          rw [← List.cons_append, ← hct,
            takeDigits_spec _ _ (natToDigits_all_digits _) hrest]
          simp [digitsVal_natToDigits]
          omega
      | str s =>
        have hlen : s.data.length < (escapeString s.data ++ ('"' :: rest)).length + 1 := by
          have := escapeString_length s.data
          simp only [List.length_append, List.length_cons]
          omega
        have hesc := parseStringBody_escape s.data _ rest hlen
        simp only [List.length_append, List.length_cons] at hesc
        simp [Json.out, strChars, parseValue, skipWs, List.dropWhile, isWs,
          List.append_assoc, hesc]
      | arr elems =>
        cases elems with
        | nil => simp [Json.out, parseValue, skipWs, List.dropWhile, isWs]
        | cons x xs =>
          obtain ⟨cx, tx, hx, hxw, hxr⟩ := out_cons x
          have hmx : Json.melems (x :: xs) ≤ f := by
            simp [Json.mval] at hm
            omega
          simp only [Json.out, List.cons_append, List.append_assoc]
          simp only [parseValue]
          rw [skipWs_cons '[' _ (by decide)]
          simp
          rw [hx, List.cons_append, skipWs_cons cx _ hxw]
          split
          · rename_i heq
            rw [List.cons.injEq] at heq
            exact absurd heq.1 hxr
          · rw [← List.cons_append, ← hx, ihE x xs rest hmx]
      | obj fields =>
        cases fields with
        | nil => simp [Json.out, parseValue, skipWs, List.dropWhile, isWs]
        | cons f0 fs =>
          obtain ⟨k, v⟩ := f0
          have hmfs : Json.mmems ((k, v) :: fs) ≤ f := by
            simp [Json.mval] at hm
            omega
          have ihMk := ihM k v fs rest hmfs
          simp only [Json.memberChars, strChars, List.cons_append, List.append_assoc,
            List.nil_append] at ihMk
          simp only [Json.out, List.cons_append, List.append_assoc]
          simp only [parseValue]
          rw [skipWs_cons '\x7b' _ (by decide)]
          simp only [Json.memberChars, strChars, List.cons_append, List.append_assoc,
            List.nil_append]
          simp [skipWs, List.dropWhile, isWs]
          rw [ihMk]
    · intro x xs rest hm
      have hmx : Json.mval x ≤ f := by
        simp [Json.melems] at hm
        omega
      simp only [parseElems]
      rw [ihV x _ hmx (headNotDigit_outElems xs rest)]
      cases xs with
      | nil => simp [Json.outElems, skipWs, List.dropWhile, isWs]
      | cons y ys =>
        have hmy : Json.melems (y :: ys) ≤ f := by
          simp [Json.melems] at hm ⊢
          omega
        simp only [Json.outElems, List.cons_append, List.append_assoc]
        rw [skipWs_cons ',' _ (by decide)]
        simp only []
        rw [ihE y ys rest hmy]
    · intro k v fs rest hm
      have hmv : Json.mval v ≤ f := by
        simp [Json.mmems] at hm
        omega
      simp only [Json.memberChars, strChars, List.cons_append, List.append_assoc,
        List.nil_append]
      simp only [parseMembers]
      rw [skipWs_cons '"' _ (by decide)]
      simp only [reduceIte]
      have hlen : k.data.length <
          (escapeString k.data ++
            ('"' :: (':' :: (Json.out v ++ (Json.outMembers fs ++ rest))))).length + 1 := by
        have := escapeString_length k.data
        simp only [List.length_append, List.length_cons]
        omega
      have hesc := parseStringBody_escape k.data _
        (':' :: (Json.out v ++ (Json.outMembers fs ++ rest))) hlen
      rw [hesc]
      simp only []
      rw [skipWs_cons ':' _ (by decide)]
      simp only []
      rw [ihV v _ hmv (headNotDigit_outMembers fs rest)]
      cases fs with
      | nil => simp [Json.outMembers, skipWs, List.dropWhile, isWs]
      | cons g gs =>
        obtain ⟨gk, gv⟩ := g
        have hmg : Json.mmems ((gk, gv) :: gs) ≤ f := by
          simp [Json.mmems] at hm ⊢
          omega
        simp only [Json.outMembers, List.cons_append, List.append_assoc]
        rw [skipWs_cons ',' _ (by decide)]
        simp only []
        rw [ihM gk gv gs rest hmg]

theorem out_length_pos (v : Json) : 1 ≤ (Json.out v).length := by
  obtain ⟨c, t, h, _, _⟩ := out_cons v
  rw [h]
  simp

theorem json_sizeOf_pos (v : Json) : 1 ≤ sizeOf v := by
  cases v <;> simp

theorem out_length_bound : ∀ n : Nat,
    (∀ v : Json, sizeOf v ≤ n → Json.mval v ≤ (Json.out v).length) ∧
    (∀ (x : Json) (xs : List Json), sizeOf x + sizeOf xs ≤ n →
      Json.melems (x :: xs) ≤ (Json.out x).length + (Json.outElems xs).length) ∧
    (∀ (v : Json) (fs : List (String × Json)) (k : String), sizeOf v + sizeOf fs ≤ n →
      Json.mmems ((k, v) :: fs) ≤
        (Json.memberChars (k, v)).length + (Json.outMembers fs).length) := by
  intro n
  induction n with
  | zero =>
    refine ⟨?_, ?_, ?_⟩
    · intro v h
      exact absurd h (by have := json_sizeOf_pos v; omega)
    · intro x xs h
      exact absurd h (by have := json_sizeOf_pos x; omega)
    · intro v fs k h
      exact absurd h (by have := json_sizeOf_pos v; omega)
  | succ n ih =>
    obtain ⟨ihV, ihE, ihM⟩ := ih
    refine ⟨?_, ?_, ?_⟩
    · intro v h
      cases v with
      | null => simpa [Json.mval] using out_length_pos .null
      | bool b => simpa [Json.mval] using out_length_pos (.bool b)
      | num m => simpa [Json.mval] using out_length_pos (.num m)
      | str s => simpa [Json.mval] using out_length_pos (.str s)
      | arr elems =>
        cases elems with
        | nil => simp [Json.mval, Json.out]
        | cons x xs =>
          have hsz : sizeOf x + sizeOf xs ≤ n := by
            simp at h
            omega
          have := ihE x xs hsz
          simp only [Json.mval, Json.out, List.length_cons, List.length_append]
          omega
      | obj fields =>
        cases fields with
        | nil => simp [Json.mval, Json.out]
        | cons f0 fs =>
          obtain ⟨k, v0⟩ := f0
          have hsz : sizeOf v0 + sizeOf fs ≤ n := by
            simp at h
            omega
          have := ihM v0 fs k hsz
          simp only [Json.mval, Json.out, List.length_cons, List.length_append]
          omega
    · intro x xs h
      cases xs with
      | nil =>
        have hx : sizeOf x ≤ n := by
          simp at h
          omega
        have := ihV x hx
        simp only [Json.melems, Json.outElems, List.length_cons, List.length_nil]
        omega
      | cons y ys =>
        have hx : sizeOf x ≤ n := by
          simp at h
          have := json_sizeOf_pos y
          omega
        have hyys : sizeOf y + sizeOf ys ≤ n := by
          simp at h
          have := json_sizeOf_pos x
          omega
        have h1 := ihV x hx
        have h2 := ihE y ys hyys
        simp only [Json.melems, List.length_cons, List.length_append] at h2
        simp only [Json.melems, Json.outElems, List.length_cons, List.length_append]
        omega
    · intro v fs k h
      cases fs with
      | nil =>
        have hv : sizeOf v ≤ n := by
          simp at h
          omega
        have := ihV v hv
        simp only [Json.mmems, Json.memberChars, Json.outMembers, List.length_cons,
          List.length_nil, List.length_append]
        omega
      | cons g gs =>
        obtain ⟨gk, gv⟩ := g
        have hv : sizeOf v ≤ n := by
          simp at h
          have := json_sizeOf_pos gv
          omega
        have hggs : sizeOf gv + sizeOf gs ≤ n := by
          simp at h
          have := json_sizeOf_pos v
          omega
        have h1 := ihV v hv
        have h2 := ihM gv gs gk hggs
        simp only [Json.mmems, Json.memberChars, List.length_cons, List.length_append] at h2
        simp only [Json.mmems, Json.memberChars, Json.outMembers, List.length_cons,
          List.length_append]
        omega

/-- `JSON.parse` recovers exactly the value `JSON.stringify` printed. -/
theorem parse_stringify (v : Json) : Json.parse (Json.stringify v) = some v := by
  unfold Json.parse Json.stringify
  have hm : Json.mval v ≤ (Json.out v).length + 1 := by
    have h1 := (out_length_bound (sizeOf v)).1 v (le_refl _)
    omega
  have hmain := (parse_out_main ((Json.out v).length + 1)).1 v [] hm trivial
  rw [List.append_nil] at hmain
  show (match parseValue ((Json.out v).length + 1) (Json.out v) with
    | some p =>
      match skipWs p.2 with
      | [] => some p.1
      | _ => none
    | none => none) = some v
  rw [hmain]
  rfl

/-! ### The cache store (tmdb_cache module) -/

/-- `defaultTtl`: thirty days in milliseconds. -/
def defaultTtl : Int := 1000 * 60 * 60 * 24 * 30

def configCacheFilePath : String := "./tmdb_cache/configuration.json"

def infoCachePath : String := "./tmdb_cache/movie_info/"

def postersCachePath : String := "./tmdb_cache/posters/"

/-- `getInfoCacheFilePathFromId`. -/
def getInfoCacheFilePathFromId (tmdb_id : String) : String :=
  infoCachePath ++ tmdb_id ++ ".json"

/-- `getMoviePosterCachePath`: plain string concatenation of the poster
root, the size and the poster file name. -/
def getMoviePosterCachePath (posterFileName : String) (size : String) : String :=
  postersCachePath ++ size ++ posterFileName

/-- One cache file on disk: its contents and its `mtime`. -/
structure FileData where
  content : String
  mtime : Int

/-- The filesystem visible to the module: path to file data. -/
def FS : Type := String → Option FileData

/-- `fs.writeFile` of a whole file: replaces the entry at a path. -/
def FS.update (fs : FS) (p : String) (d : FileData) : FS :=
  fun q => if q = p then some d else fs q

/-- `isValidCacheFileDate(fileDate, ttl)` evaluated at time `now`:
a falsy ttl (absent or zero) falls back to `defaultTtl`; the file is
stale exactly when its date is strictly before `now - ttl`. -/
def isValidCacheFileDate (now fileDate : Int) (ttl : Option Int) : Bool :=
  let t : Int :=
    match ttl with
    | none => defaultTtl
    | some v => if v = 0 then defaultTtl else v
  if fileDate < now - t then false else true

/-- The cache-read failure taxonomy of the spec: missing backing file,
entry older than the TTL, or unparseable contents. -/
inductive CacheErr where
  | notFound
  | stale
  | corrupt
deriving DecidableEq

/-- `validateCacheFileDate(filePath)`: rejects when `fs.stat` fails
(no file) or the mtime is out of date; resolves otherwise. -/
def validateCacheFileDate (fs : FS) (now : Int) (filePath : String) :
    Except CacheErr Unit :=
  match fs filePath with
  | none => .error .notFound
  | some d =>
    if isValidCacheFileDate now d.mtime none then .ok () else .error .stale

/-- `validateCacheFileContents(filePath)`: rejects when the file is
missing or its contents fail to parse as JSON; resolves with the
parsed JSON otherwise. -/
def validateCacheFileContents (fs : FS) (filePath : String) : Except CacheErr Json :=
  match fs filePath with
  | none => .error .notFound
  | some d =>
    match Json.parse d.content with
    | some j => .ok j
    | none => .error .corrupt

/-- `validateCacheFile(filePath)`: `Promise.all` of the date check and
the contents check; usable only when both succeed, in which case the
caller reads the parsed JSON out of `results[1]`. -/
def validateCacheFile (fs : FS) (now : Int) (filePath : String) : Except CacheErr Json :=
  match validateCacheFileDate fs now filePath with
  | .error e => .error e
  | .ok _ =>
    match validateCacheFileContents fs filePath with
    | .error e => .error e
    | .ok j => .ok j

/-- `saveMovieInfo(tmdb_id, movieInfo)`: serialize and write; the pair
is the filesystem afterwards and the settled outcome (the written path
on success, a storage error otherwise).  `writeOk` is whether the
underlying `fs.writeFile` succeeds; `writeTime` is the new mtime. -/
def saveMovieInfo (fs : FS) (tmdb_id : String) (movieInfo : Json)
    (writeOk : Bool) (writeTime : Int) : FS × Except String String :=
  let filePath := getInfoCacheFilePathFromId tmdb_id
  let fileContents := Json.stringify movieInfo
  if writeOk then (fs.update filePath (FileData.mk fileContents writeTime), .ok filePath)
  else (fs, .error "storage error")

/-! ### Promises, traces and the resolvers -/

/-- A JavaScript value as it appears in resolutions and rejections. -/
inductive JsValue where
  | undef
  | json (j : Json)
  | jsError (e : String)
  | httpResponse (status : Nat)

/-- Observable events of one resolver call, in the order the event
loop runs them.  `resolveCall`/`rejectCall` are the settle calls of
the promise the traced function controls; inner promises contribute
only their I/O events. -/
inductive Effect where
  | statCheck (p : String)
  | readContents (p : String)
  | netFetch
  | httpRequest (url : String)
  | fileWrite (p : String)
  | writeDone (p : String)
  | consoleLog
  | consoleError
  | readTitleField
  | crash
  | assignBaseUrl (v : Option Json)
  | resolveCall (v : JsValue)
  | rejectCall (v : JsValue)

/-- How a promise settles: by its first `resolve` or `reject` call;
`pending` when its executor crashed before either. -/
inductive Settle where
  | resolved (v : JsValue)
  | rejected (v : JsValue)
  | pending

/-- The first settle call in a trace wins; later ones are no-ops. -/
def firstSettle : List Effect → Settle
  | [] => .pending
  | .resolveCall v :: _ => .resolved v
  | .rejectCall v :: _ => .rejected v
  | _ :: t => firstSettle t

/-- Whether an event is a settle call of the traced promise. -/
def Effect.isSettleCall : Effect → Bool
  | .resolveCall _ => true
  | .rejectCall _ => true
  | _ => false

/-- The I/O events of an inner promise, its own settle calls hidden. -/
def ioEvents (t : List Effect) : List Effect :=
  t.filter (fun e => !e.isSettleCall)

/-- The trace of the `MovieDB.movieInfo` callback inside
`fetchMovieInfo(tmdb_id, resolve, reject)`, given the callback
arguments `(err, data)` and whether the background write succeeds.
A non-null `err` rejects but does not return; the log line then
dereferences `data.title`, which crashes when `data` is
null/undefined; otherwise the save is started, the promise is
resolved with `data`, and the write completes in the background
(logged on success, `console.error`ed on failure). -/
def fetchMovieInfoTrace (tmdb_id : String) (err : Option String) (data : Option Json)
    (writeOk : Bool) : List Effect :=
  (match err with
   | some e => [.rejectCall (.jsError e)]
   | none => []) ++
    match data with
    | none => [.readTitleField, .crash]
    | some d =>
      [.readTitleField, .consoleLog, .fileWrite (getInfoCacheFilePathFromId tmdb_id),
        .resolveCall (.json d)] ++
        (if writeOk then [.writeDone (getInfoCacheFilePathFromId tmdb_id), .consoleLog]
         else [.consoleError])

/-- Result of one resolver call: its event trace (with its own settle
calls) and the filesystem after all background writes finish. -/
structure CallResult where
  trace : List Effect
  fsAfter : FS

/-- The settled outcome of the call. -/
def CallResult.settle (r : CallResult) : Settle :=
  firstSettle r.trace

/-- `getMovieInfo(tmdb_id)`: validate the cache file; on success log
and resolve with the parsed JSON (`results[1]`), otherwise fall back to
`fetchMovieInfo`.  `netErr`/`netData` are what `MovieDB.movieInfo`
passes to its callback if a fetch happens. -/
def getMovieInfoCall (fs : FS) (now : Int) (tmdb_id : String) (netErr : Option String)
    (netData : Option Json) (writeOk : Bool) (writeTime : Int) : CallResult :=
  let cacheFilePath := getInfoCacheFilePathFromId tmdb_id
  let ioPart : List Effect := [.statCheck cacheFilePath, .readContents cacheFilePath]
  match validateCacheFile fs now cacheFilePath with
  | .ok j => CallResult.mk (ioPart ++ [.consoleLog, .resolveCall (.json j)]) fs
  | .error _ =>
    let fsAfter :=
      match netData, writeOk with
      | some d, true =>
        fs.update cacheFilePath (FileData.mk (Json.stringify d) writeTime)
      | _, _ => fs
    CallResult.mk (ioPart ++ [.netFetch] ++ fetchMovieInfoTrace tmdb_id netErr netData writeOk)
      fsAfter

/-- The trace of the `MovieDB.configuration` callback inside
`fetchAPIConfiguration(resolve, reject)`.  As in `fetchMovieInfo` a
non-null `err` rejects without returning, but the log line here
dereferences nothing; the save is started (`JSON.stringify(undefined)`
makes the write fail when `data` is undefined, which the `.catch` only
logs), and the promise is resolved with `data`. -/
def fetchAPIConfigurationTrace (err : Option String) (data : Option Json)
    (writeOk : Bool) : List Effect :=
  (match err with
   | some e => [.rejectCall (.jsError e)]
   | none => []) ++
    [.consoleLog] ++
    (match data with
     | none => [.resolveCall .undef, .consoleError]
     | some d =>
       [.fileWrite configCacheFilePath, .resolveCall (.json d)] ++
         (if writeOk then [.writeDone configCacheFilePath, .consoleLog]
          else [.consoleError]))

/-- `getAPIConfiguration()`: validate the well-known config cache file;
on success log and resolve with the parsed JSON, otherwise fall back to
`fetchAPIConfiguration`. -/
def getAPIConfigurationCall (fs : FS) (now : Int) (netErr : Option String)
    (netData : Option Json) (writeOk : Bool) (writeTime : Int) : CallResult :=
  let ioPart : List Effect := [.statCheck configCacheFilePath, .readContents configCacheFilePath]
  match validateCacheFile fs now configCacheFilePath with
  | .ok j => CallResult.mk (ioPart ++ [.consoleLog, .resolveCall (.json j)]) fs
  | .error _ =>
    let fsAfter :=
      match netData, writeOk with
      | some d, true =>
        fs.update configCacheFilePath (FileData.mk (Json.stringify d) writeTime)
      | _, _ => fs
    CallResult.mk (ioPart ++ [.netFetch] ++ fetchAPIConfigurationTrace netErr netData writeOk)
      fsAfter

/-- Field access `j.k` on a parsed JSON value: a member lookup on an
object, undefined (`none`) on anything else. -/
def Json.getField : Json → String → Option Json
  | .obj fields, key => (fields.find? (fun f => f.1 == key)).map (fun f => f.2)
  | _, _ => none

/-- Result of `getTMDBImagesBaseUrl()`: trace, filesystem afterwards,
and the value of the module-level `tmdbImagesBaseUrl` variable after
the call. -/
structure BaseUrlResult where
  trace : List Effect
  fsAfter : FS
  tmdbImagesBaseUrl : Option Json

/-- The settled outcome of the call. -/
def BaseUrlResult.settle (r : BaseUrlResult) : Settle :=
  firstSettle r.trace

/-- `getTMDBImagesBaseUrl()`.  If the module variable
`tmdbImagesBaseUrl` is defined, log and resolve with it immediately.
Otherwise log, run `getAPIConfiguration()` and, on success, assign
`results.images.base_url` to the variable before resolving with it; a
missing `images` field crashes the `.then` callback, which the
`.catch` turns into `reject(tmdbImagesBaseUrl)`; a configuration
failure likewise rejects with the (still unset) variable rather than
the underlying error. -/
def getTMDBImagesBaseUrlCall (fs : FS) (now : Int) (tmdbImagesBaseUrl : Option Json)
    (netErr : Option String) (netData : Option Json) (writeOk : Bool) (writeTime : Int) :
    BaseUrlResult :=
  match tmdbImagesBaseUrl with
  | some v => BaseUrlResult.mk [.consoleLog, .resolveCall (.json v)] fs (some v)
  | none =>
    let c := getAPIConfigurationCall fs now netErr netData writeOk writeTime
    let io := .consoleLog :: ioEvents c.trace
    match c.settle with
    | .resolved (.json results) =>
      match results.getField "images" with
      | some imgs =>
        let bu := imgs.getField "base_url"
        BaseUrlResult.mk
          (io ++ [.assignBaseUrl bu,
            .resolveCall (match bu with | some b => .json b | none => .undef)])
          c.fsAfter bu
      | none => BaseUrlResult.mk (io ++ [.crash, .rejectCall .undef]) c.fsAfter none
    | .resolved _ => BaseUrlResult.mk (io ++ [.crash, .rejectCall .undef]) c.fsAfter none
    | .rejected _ => BaseUrlResult.mk (io ++ [.rejectCall .undef]) c.fsAfter none
    | .pending => BaseUrlResult.mk io c.fsAfter none

/-- String coercion applied when the resolved base url is concatenated
into the download url (only the string case occurs in practice). -/
def jsToUrlString (v : JsValue) : String :=
  match v with
  | .json (.str s) => s
  | .undef => "undefined"
  | _ => "object"

/-- Outcome of the streaming poster download for a given url. -/
inductive NetResult where
  | netError (e : String)
  | resp (status : Nat)

/-- `fetchAndSaveMoviePoster(posterFileName, size)`: obtain the base
url, request `baseUrl + size + posterFileName`; an emitted request
error rejects with it, a non-200 status rejects with the response, and
otherwise the body is piped to the destination file and the promise
resolves with the destination path when the stream closes.  A base-url
failure is passed through by the `.catch` as the rejection reason. -/
def fetchAndSaveMoviePosterCall (fs : FS) (now : Int) (tmdbImagesBaseUrl : Option Json)
    (netErr : Option String) (netData : Option Json) (writeOk : Bool) (writeTime : Int)
    (posterNet : String → NetResult) (downloadTime : Int)
    (posterFileName : String) (size : String) : CallResult :=
  let destPath := getMoviePosterCachePath posterFileName size
  let b := getTMDBImagesBaseUrlCall fs now tmdbImagesBaseUrl netErr netData writeOk writeTime
  match b.settle with
  | .resolved v =>
    let url := jsToUrlString v ++ size ++ posterFileName
    (match posterNet url with
     | .netError e =>
       CallResult.mk
         (ioEvents b.trace ++ [.consoleLog, .httpRequest url, .consoleLog,
           .rejectCall (.jsError e)])
         b.fsAfter
     | .resp status =>
       if status = 200 then
         CallResult.mk
           (ioEvents b.trace ++ [.consoleLog, .httpRequest url, .fileWrite destPath,
             .writeDone destPath, .resolveCall (.json (.str destPath))])
           (b.fsAfter.update destPath (FileData.mk "binary image data" downloadTime))
       else
         CallResult.mk
           (ioEvents b.trace ++ [.consoleLog, .httpRequest url,
             .rejectCall (.httpResponse status)])
           b.fsAfter)
  | .rejected r => CallResult.mk (ioEvents b.trace ++ [.rejectCall r]) b.fsAfter
  | .pending => CallResult.mk (ioEvents b.trace) b.fsAfter

/-- `getMoviePoster(posterFileName, size)`: an undefined size becomes
"original"; if the freshness-only check on the computed local path
succeeds, log and resolve with the path immediately; otherwise defer
to `fetchAndSaveMoviePoster` and mirror its outcome. -/
def getMoviePosterCall (fs : FS) (now : Int) (tmdbImagesBaseUrl : Option Json)
    (netErr : Option String) (netData : Option Json) (writeOk : Bool) (writeTime : Int)
    (posterNet : String → NetResult) (downloadTime : Int)
    (posterFileName : String) (size : Option String) : CallResult :=
  let sz :=
    match size with
    | none => "original"
    | some s => s
  let destPath := getMoviePosterCachePath posterFileName sz
  match validateCacheFileDate fs now destPath with
  | .ok _ =>
    CallResult.mk [.statCheck destPath, .consoleLog, .resolveCall (.json (.str destPath))] fs
  | .error _ =>
    let f := fetchAndSaveMoviePosterCall fs now tmdbImagesBaseUrl netErr netData writeOk
      writeTime posterNet downloadTime posterFileName sz
    CallResult.mk
      (.statCheck destPath :: (ioEvents f.trace ++
        (match f.settle with
         | .resolved v => [.resolveCall v]
         | .rejected r => [.rejectCall r]
         | .pending => [])))
      f.fsAfter

/-! ### The per-post driver loop (convert_wordpress_posts) -/

/-- A parsed post as the driver sees it: its flat key/value metadata. -/
structure RawPost where
  postmeta : List (String × String)

/-- `getMetaValue(metaKey, postmeta)`: the value of the first matching
meta entry; the falsy sentinel for a missing key is `none`. -/
def getMetaValue (metaKey : String) (postmeta : List (String × String)) : Option String :=
  (postmeta.find? (fun el => el.1 == metaKey)).map (fun el => el.2)

/-- What the driver loop does with one post. -/
structure PostOutcome where
  infoAttempted : Bool
  posterAttempted : Bool
  failureLogged : Bool
deriving DecidableEq

/-- One iteration of the per-post loop: with no `tmdb_id` the post is
only logged; with one, `getMovieInfo` is invoked and its handlers are
attached — the `.then` merges the result and fires `getMoviePoster`
(whose own outcome is discarded without a handler), the `.catch` logs.
`infoSettle`/`posterSettle` give the eventual outcomes of the metadata
and poster promises by identifier. -/
def processPost (infoSettle : String → Settle) (posterSettle : String → Settle)
    (p : RawPost) : PostOutcome :=
  match getMetaValue "tmdb_id" p.postmeta with
  | none => PostOutcome.mk false false false
  | some tmdb_id =>
    match infoSettle tmdb_id with
    | .resolved _ => PostOutcome.mk true true false
    | .rejected _ => PostOutcome.mk true false true
    | .pending => PostOutcome.mk true false false

/-- The synchronous `for` loop over all parsed posts: every iteration
runs to completion regardless of how any promise later settles. -/
def processBatch (infoSettle posterSettle : String → Settle) :
    List RawPost → List PostOutcome
  | [] => []
  | p :: rest => processPost infoSettle posterSettle p :: processBatch infoSettle posterSettle rest

/-! ### Settle helpers -/

theorem firstSettle_skip (e : Effect) (t : List Effect) (h : e.isSettleCall = false) :
    firstSettle (e :: t) = firstSettle t := by
  cases e <;> first
    | rfl
    | exact absurd h (by simp [Effect.isSettleCall])

theorem firstSettle_ioEvents_append (t rest : List Effect) :
    firstSettle (ioEvents t ++ rest) = firstSettle rest := by
  induction t with
  | nil => rfl
  | cons e es ih =>
    by_cases h : e.isSettleCall
    · simp [ioEvents, List.filter, h] at ih ⊢
      exact ih
    · have h2 : e.isSettleCall = false := by
        cases hs : e.isSettleCall
        · rfl
        · exact absurd hs h
      simp only [ioEvents, List.filter, h2, Bool.not_false, List.cons_append]
      rw [firstSettle_skip e _ h2]
      simpa [ioEvents] using ih

/-! ### C1: freshness boundary -/

/-- C1 counterexample: a cache file written at time 0, checked exactly
at `0 + defaultTtl`, still validates (the claim demands a Stale
failure at or after T+TTL). -/
theorem c1_boundary_counterexample :
    validateCacheFileDate (fun _ => some (FileData.mk "x" 0)) (0 + defaultTtl) "k" =
      .ok () ∧
    validateCacheFileDate (fun _ => some (FileData.mk "x" 0)) (0 + defaultTtl) "k" ≠
      .error .stale := by
  have h1 : validateCacheFileDate (fun _ => some (FileData.mk "x" 0)) (0 + defaultTtl) "k" =
      .ok () := rfl
  refine ⟨h1, ?_⟩
  rw [h1]
  intro h
  exact Except.noConfusion h

/-- C1 (amended): for a cache key whose backing file was written at
time T, the freshness check with the default TTL succeeds for any
check time at or before T+TTL, and fails with Stale for any check time
strictly after T+TTL. -/
theorem c1_freshness_boundary (fs : FS) (p content : String) (T now : Int)
    (hfile : fs p = some (FileData.mk content T)) :
    (now ≤ T + defaultTtl → validateCacheFileDate fs now p = .ok ()) ∧
    (T + defaultTtl < now → validateCacheFileDate fs now p = .error .stale) := by
  unfold validateCacheFileDate
  rw [hfile]
  simp only [isValidCacheFileDate]
  constructor
  · intro h
    simp [show ¬ T < now - defaultTtl from by omega]
  · intro h
    simp [show T < now - defaultTtl from by omega]

theorem c1_freshness_boundary_witness :
    validateCacheFileDate (fun _ => some (FileData.mk "x" 10)) 11 "k" = .ok () ∧
    validateCacheFileDate (fun _ => some (FileData.mk "x" 10)) (10 + defaultTtl + 1) "k" =
      .error .stale :=
  ⟨(c1_freshness_boundary (fun _ => some (FileData.mk "x" 10)) "k" "x" 10 11 rfl).1
      (by decide),
    (c1_freshness_boundary (fun _ => some (FileData.mk "x" 10)) "k" "x" 10
        (10 + defaultTtl + 1) rfl).2 (by decide)⟩

/-! ### C2: key-to-path injectivity -/

theorem string_data_append (s t : String) : (s ++ t).data = s.data ++ t.data := rfl

theorem string_eq_of_data (a b : String) (h : a.data = b.data) : a = b := by
  cases a
  cases b
  exact congrArg String.mk h

theorem append_slash_split : ∀ (s1 s2 r1 r2 : List Char),
    (∀ c ∈ s1, c ≠ '/') → (∀ c ∈ s2, c ≠ '/') →
    r1.head? = some '/' → r2.head? = some '/' →
    s1 ++ r1 = s2 ++ r2 → s1 = s2 ∧ r1 = r2 := by
  intro s1
  induction s1 with
  | nil =>
    intro s2 r1 r2 h1 h2 hr1 hr2 heq
    cases s2 with
    | nil => exact ⟨rfl, heq⟩
    | cons c t =>
      simp only [List.nil_append, List.cons_append] at heq
      rw [heq] at hr1
      have hc : c = '/' := by simpa using hr1
      exact absurd hc (h2 c (by simp))
  | cons c t ih =>
    intro s2 r1 r2 h1 h2 hr1 hr2 heq
    cases s2 with
    | nil =>
      simp only [List.cons_append, List.nil_append] at heq
      rw [← heq] at hr2
      have hc : c = '/' := by simpa using hr2
      exact absurd hc (h1 c (by simp))
    | cons c2 t2 =>
      simp only [List.cons_append, List.cons.injEq] at heq
      obtain ⟨hc, heq2⟩ := heq
      subst hc
      have h1t : ∀ x ∈ t, x ≠ '/' := fun x hx => h1 x (by simp [hx])
      have h2t : ∀ x ∈ t2, x ≠ '/' := fun x hx => h2 x (by simp [hx])
      obtain ⟨he1, he2⟩ := ih t2 r1 r2 h1t h2t hr1 hr2 heq2
      exact ⟨by rw [he1], he2⟩

/-- C2 counterexample: two distinct (poster identifier, size) pairs
whose concatenated storage paths coincide. -/
theorem c2_collision_counterexample :
    getMoviePosterCachePath "/a.jpg" "w500" = getMoviePosterCachePath "0/a.jpg" "w50" ∧
    ("/a.jpg", "w500") ≠ (("0/a.jpg" : String), ("w50" : String)) := by
  constructor
  · rfl
  · decide

/-- C2 (amended): the poster path mapping is injective on the pairs
that actually occur — poster identifiers starting with a slash and
sizes containing none — and no poster path ever equals a
structured-metadata path. -/
theorem c2_posterPath_injective (n1 s1 n2 s2 : String)
    (hn1 : n1.data.head? = some '/') (hn2 : n2.data.head? = some '/')
    (hs1 : ∀ c ∈ s1.data, c ≠ '/') (hs2 : ∀ c ∈ s2.data, c ≠ '/')
    (hne : (n1, s1) ≠ (n2, s2)) :
    getMoviePosterCachePath n1 s1 ≠ getMoviePosterCachePath n2 s2 ∧
    (∀ (tmdb_id n s : String),
      getMoviePosterCachePath n s ≠ getInfoCacheFilePathFromId tmdb_id) := by
  constructor
  · intro heq
    have hdata : (postersCachePath.data ++ s1.data) ++ n1.data =
        (postersCachePath.data ++ s2.data) ++ n2.data := by
      have := congrArg String.data heq
      simpa [getMoviePosterCachePath, string_data_append] using this
    rw [List.append_assoc, List.append_assoc] at hdata
    have hcancel := List.append_cancel_left hdata
    obtain ⟨hs, hn⟩ := append_slash_split s1.data s2.data n1.data n2.data hs1 hs2 hn1 hn2
      hcancel
    exact hne (by
      rw [string_eq_of_data n1 n2 hn, string_eq_of_data s1 s2 hs])
  · intro tmdb_id n s heq
    have hdata := congrArg String.data heq
    simp only [getMoviePosterCachePath, getInfoCacheFilePathFromId,
      string_data_append] at hdata
    have hp : postersCachePath.data =
        "./tmdb_cache/".data ++ ('p' :: "osters/".data) := by decide
    have hi : infoCachePath.data =
        "./tmdb_cache/".data ++ ('m' :: "ovie_info/".data) := by decide
    rw [hp, hi] at hdata
    simp at hdata

theorem c2_posterPath_injective_witness :
    getMoviePosterCachePath "/a.jpg" "w92" ≠ getMoviePosterCachePath "/b.jpg" "w92" ∧
    (∀ (tmdb_id n s : String),
      getMoviePosterCachePath n s ≠ getInfoCacheFilePathFromId tmdb_id) :=
  c2_posterPath_injective "/a.jpg" "w92" "/b.jpg" "w92" (by decide) (by decide)
    (by decide) (by decide) (by decide)

/-! ### C8: write / read round trip -/

/-- C8: for every JSON value V and key K, writing V via the cache
write (JSON serialization in saveMovieInfo) and then reading K via
validateCacheFileContents yields a value deep-equal to V. -/
theorem c8_write_read_roundtrip (fs : FS) (tmdb_id : String) (v : Json) (writeTime : Int) :
    validateCacheFileContents (saveMovieInfo fs tmdb_id v true writeTime).1
      (getInfoCacheFilePathFromId tmdb_id) = .ok v := by
  unfold saveMovieInfo validateCacheFileContents
  simp [FS.update, parse_stringify]

/-! ### C4: resolution does not wait for the cache write -/

/-- C4: on a cache miss with a successful network response, the
metadata fetch settles its promise as resolved with the fetched value;
the outcome is identical whether the background write succeeds or
fails; the resolve call strictly precedes the write-completion event;
and a failed write only adds a `console.error`. -/
theorem c4_resolve_before_write (tmdb_id : String) (d : Json) (writeOk : Bool) :
    firstSettle (fetchMovieInfoTrace tmdb_id none (some d) writeOk) = .resolved (.json d) ∧
    firstSettle (fetchMovieInfoTrace tmdb_id none (some d) true) =
      firstSettle (fetchMovieInfoTrace tmdb_id none (some d) false) ∧
    (∃ i j : Nat, i < j ∧
      (fetchMovieInfoTrace tmdb_id none (some d) writeOk)[i]? =
        some (Effect.resolveCall (JsValue.json d)) ∧
      (fetchMovieInfoTrace tmdb_id none (some d) writeOk)[j]? =
        some (if writeOk then Effect.writeDone (getInfoCacheFilePathFromId tmdb_id)
          else Effect.consoleError)) ∧
    Effect.consoleError ∈ fetchMovieInfoTrace tmdb_id none (some d) false := by
  cases writeOk <;>
    exact ⟨rfl, rfl, ⟨3, 4, by decide, rfl, rfl⟩, by simp [fetchMovieInfoTrace]⟩

/-! ### C9: behaviour of errored fetch callbacks -/

/-- C9 counterexample: an errored configuration fetch whose data is
undefined rejects and then continues — but performs no field
dereference and no crash, contradicting the claim's universal
"performs an invalid dereference" over both fetch callbacks. -/
theorem c9_config_no_deref_counterexample :
    Effect.readTitleField ∉ fetchAPIConfigurationTrace (some "boom") none true ∧
    Effect.crash ∉ fetchAPIConfigurationTrace (some "boom") none true ∧
    Effect.rejectCall (.jsError "boom") ∈ fetchAPIConfigurationTrace (some "boom") none true ∧
    Effect.resolveCall .undef ∈ fetchAPIConfigurationTrace (some "boom") none true := by
  refine ⟨?_, ?_, ?_, ?_⟩ <;> simp [fetchAPIConfigurationTrace]

/-- C9 (amended): when the service callback reports a non-null error,
both callbacks reject without returning and keep executing; in
fetchMovieInfo the log line then dereferences `data.title`, which is
an invalid dereference (crash) after the rejection when data is
null/undefined; in fetchAPIConfiguration execution likewise continues
to the save and resolve paths but performs no field dereference. -/
theorem c9_errored_fetch_behavior (tmdb_id e : String) (writeOk : Bool) :
    fetchMovieInfoTrace tmdb_id (some e) none writeOk =
      [.rejectCall (.jsError e), .readTitleField, .crash] ∧
    (∃ i j : Nat, i < j ∧
      (fetchMovieInfoTrace tmdb_id (some e) none writeOk)[i]? =
        some (Effect.rejectCall (JsValue.jsError e)) ∧
      (fetchMovieInfoTrace tmdb_id (some e) none writeOk)[j]? = some Effect.crash) ∧
    fetchAPIConfigurationTrace (some e) none writeOk =
      [.rejectCall (.jsError e), .consoleLog, .resolveCall .undef, .consoleError] ∧
    Effect.readTitleField ∉ fetchAPIConfigurationTrace (some e) none writeOk ∧
    Effect.crash ∉ fetchAPIConfigurationTrace (some e) none writeOk := by
  refine ⟨rfl, ⟨0, 2, by decide, rfl, rfl⟩, rfl, ?_, ?_⟩ <;>
    simp [fetchAPIConfigurationTrace]

/-! ### C3: idempotence of metadata resolution -/

/-- C3: if a first getMovieInfo call fetched from the network, its
cache write succeeded, and the entry is still fresh at the second
call's time, then the second call for the same identifier performs no
network fetch and resolves with the cached (fetched) value — whatever
the network would have answered the second time. -/
theorem c3_getMovieInfo_idempotent (fs : FS) (now1 now2 writeTime writeTime2 : Int)
    (tmdb_id : String) (d : Json) (netErr2 : Option String) (netData2 : Option Json)
    (writeOk2 : Bool)
    (hfetched : Effect.netFetch ∈
      (getMovieInfoCall fs now1 tmdb_id none (some d) true writeTime).trace)
    (hfresh : now2 ≤ writeTime + defaultTtl) :
    Effect.netFetch ∉
      (getMovieInfoCall (getMovieInfoCall fs now1 tmdb_id none (some d) true writeTime).fsAfter
        now2 tmdb_id netErr2 netData2 writeOk2 writeTime2).trace ∧
    (getMovieInfoCall (getMovieInfoCall fs now1 tmdb_id none (some d) true writeTime).fsAfter
        now2 tmdb_id netErr2 netData2 writeOk2 writeTime2).settle = .resolved (.json d) := by
  cases hval : validateCacheFile fs now1 (getInfoCacheFilePathFromId tmdb_id) with
  | ok j =>
    exfalso
    simp [getMovieInfoCall, hval] at hfetched
  | error err1 =>
    have hfsa : (getMovieInfoCall fs now1 tmdb_id none (some d) true writeTime).fsAfter =
        FS.update fs (getInfoCacheFilePathFromId tmdb_id)
          (FileData.mk (Json.stringify d) writeTime) := by
      simp [getMovieInfoCall, hval]
    set F := (getMovieInfoCall fs now1 tmdb_id none (some d) true writeTime).fsAfter with hF
    have hit2 : validateCacheFile F now2 (getInfoCacheFilePathFromId tmdb_id) = .ok d := by
      rw [hfsa]
      unfold validateCacheFile validateCacheFileDate validateCacheFileContents
      simp [FS.update, isValidCacheFileDate,
        show ¬ writeTime < now2 - defaultTtl from by omega, parse_stringify]
    constructor
    · simp [getMovieInfoCall, hit2]
    · simp [getMovieInfoCall, hit2, CallResult.settle, firstSettle]

theorem c3_getMovieInfo_idempotent_witness :
    Effect.netFetch ∈
      (getMovieInfoCall (fun _ => none) 0 "603" none
        (some (Json.obj [("title", Json.str "The Matrix")])) true 5).trace ∧
    Effect.netFetch ∉
      (getMovieInfoCall
        (getMovieInfoCall (fun _ => none) 0 "603" none
          (some (Json.obj [("title", Json.str "The Matrix")])) true 5).fsAfter
        10 "603" none none false 0).trace ∧
    (getMovieInfoCall
        (getMovieInfoCall (fun _ => none) 0 "603" none
          (some (Json.obj [("title", Json.str "The Matrix")])) true 5).fsAfter
        10 "603" none none false 0).settle =
      .resolved (.json (Json.obj [("title", Json.str "The Matrix")])) := by
  have hfetched : Effect.netFetch ∈
      (getMovieInfoCall (fun _ => none) 0 "603" none
        (some (Json.obj [("title", Json.str "The Matrix")])) true 5).trace := by
    simp [getMovieInfoCall, validateCacheFile, validateCacheFileDate,
      fetchMovieInfoTrace]
  have h := c3_getMovieInfo_idempotent (fun _ => none) 0 10 5 0 "603"
    (Json.obj [("title", Json.str "The Matrix")]) none none false hfetched (by decide)
  exact ⟨hfetched, h.1, h.2⟩

/-! ### C5: poster resolution on a fresh cached file -/

/-- C5: getMoviePoster without a size uses the sentinel "original";
when the freshness-only check on the computed path succeeds it
resolves immediately with that path, reading no contents, consulting
no configuration and issuing no network request, and leaves the
filesystem unchanged. -/
theorem c5_getMoviePoster_cache_hit (fs : FS) (now : Int) (tmdbImagesBaseUrl : Option Json)
    (netErr : Option String) (netData : Option Json) (writeOk : Bool) (writeTime : Int)
    (posterNet : String → NetResult) (downloadTime : Int) (posterFileName : String)
    (hhit : validateCacheFileDate fs now
      (getMoviePosterCachePath posterFileName "original") = .ok ()) :
    (getMoviePosterCall fs now tmdbImagesBaseUrl netErr netData writeOk writeTime posterNet
        downloadTime posterFileName none).trace =
      [.statCheck (getMoviePosterCachePath posterFileName "original"), .consoleLog,
        .resolveCall (.json (.str (getMoviePosterCachePath posterFileName "original")))] ∧
    (getMoviePosterCall fs now tmdbImagesBaseUrl netErr netData writeOk writeTime posterNet
        downloadTime posterFileName none).settle =
      .resolved (.json (.str (getMoviePosterCachePath posterFileName "original"))) ∧
    (getMoviePosterCall fs now tmdbImagesBaseUrl netErr netData writeOk writeTime posterNet
        downloadTime posterFileName none).fsAfter = fs ∧
    Effect.netFetch ∉ (getMoviePosterCall fs now tmdbImagesBaseUrl netErr netData writeOk
        writeTime posterNet downloadTime posterFileName none).trace ∧
    (∀ u, Effect.httpRequest u ∉ (getMoviePosterCall fs now tmdbImagesBaseUrl netErr netData
        writeOk writeTime posterNet downloadTime posterFileName none).trace) ∧
    (∀ q, Effect.readContents q ∉ (getMoviePosterCall fs now tmdbImagesBaseUrl netErr netData
        writeOk writeTime posterNet downloadTime posterFileName none).trace) := by
  refine ⟨?_, ?_, ?_, ?_, ?_, ?_⟩ <;>
    simp [getMoviePosterCall, hhit, CallResult.settle, firstSettle]

theorem c5_getMoviePoster_cache_hit_witness :
    (getMoviePosterCall (fun _ => some (FileData.mk "binary image data" 0)) 0 none none none
        true 0 (fun _ => NetResult.resp 200) 0 "/poster.jpg" none).settle =
      .resolved (.json (.str (getMoviePosterCachePath "/poster.jpg" "original"))) :=
  (c5_getMoviePoster_cache_hit (fun _ => some (FileData.mk "binary image data" 0)) 0 none
    none none true 0 (fun _ => NetResult.resp 200) 0 "/poster.jpg" rfl).2.1

/-! ### C6: in-memory base-url singleton -/

/-- C6: once `tmdbImagesBaseUrl` is set, every call resolves
immediately with the stored value, performs no cache or network I/O
(its entire trace is the log line and the resolve call) and leaves the
singleton unchanged; and on the first successful resolution the
singleton is assigned strictly before the promise is resolved. -/
theorem c6_baseUrl_singleton (fs : FS) (now : Int) (netErr : Option String)
    (netData : Option Json) (writeOk : Bool) (writeTime : Int) :
    (∀ v : Json, getTMDBImagesBaseUrlCall fs now (some v) netErr netData writeOk writeTime =
      BaseUrlResult.mk [.consoleLog, .resolveCall (.json v)] fs (some v)) ∧
    (∀ results imgs bu : Json,
      (getAPIConfigurationCall fs now netErr netData writeOk writeTime).settle =
        .resolved (.json results) →
      results.getField "images" = some imgs →
      imgs.getField "base_url" = some bu →
      (getTMDBImagesBaseUrlCall fs now none netErr netData writeOk
          writeTime).tmdbImagesBaseUrl = some bu ∧
      (getTMDBImagesBaseUrlCall fs now none netErr netData writeOk writeTime).settle =
        .resolved (.json bu) ∧
      (∃ i j : Nat, i < j ∧
        (getTMDBImagesBaseUrlCall fs now none netErr netData writeOk writeTime).trace[i]? =
          some (Effect.assignBaseUrl (some bu)) ∧
        (getTMDBImagesBaseUrlCall fs now none netErr netData writeOk writeTime).trace[j]? =
          some (Effect.resolveCall (JsValue.json bu)))) := by
  constructor
  · intro v
    rfl
  · intro results imgs bu hc hi hb
    have hcall : getTMDBImagesBaseUrlCall fs now none netErr netData writeOk writeTime =
        BaseUrlResult.mk
          ((Effect.consoleLog :: ioEvents
            (getAPIConfigurationCall fs now netErr netData writeOk writeTime).trace) ++
            [Effect.assignBaseUrl (some bu), Effect.resolveCall (JsValue.json bu)])
          (getAPIConfigurationCall fs now netErr netData writeOk writeTime).fsAfter
          (some bu) := by
      simp only [getTMDBImagesBaseUrlCall]
      rw [hc]
      simp only [hi, hb]
    rw [hcall]
    refine ⟨rfl, ?_, ?_⟩
    · show firstSettle ((Effect.consoleLog :: ioEvents
        (getAPIConfigurationCall fs now netErr netData writeOk writeTime).trace) ++
          [Effect.assignBaseUrl (some bu), Effect.resolveCall (JsValue.json bu)]) =
        .resolved (.json bu)
      rw [List.cons_append, firstSettle_skip _ _ (by simp [Effect.isSettleCall]),
        firstSettle_ioEvents_append]
      rfl
    · refine ⟨(Effect.consoleLog :: ioEvents
        (getAPIConfigurationCall fs now netErr netData writeOk writeTime).trace).length,
        (Effect.consoleLog :: ioEvents
          (getAPIConfigurationCall fs now netErr netData writeOk writeTime).trace).length + 1,
        by omega, ?_, ?_⟩
      · rw [List.getElem?_append_right (le_refl _)]
        simp
      · rw [List.getElem?_append_right (by omega)]
        simp

theorem c6_baseUrl_singleton_witness :
    (getTMDBImagesBaseUrlCall (fun _ => none) 0 (some (Json.str "http://image.tmdb.org/t/p/"))
        none none true 0 =
      BaseUrlResult.mk
        [.consoleLog, .resolveCall (.json (Json.str "http://image.tmdb.org/t/p/"))]
        (fun _ => none) (some (Json.str "http://image.tmdb.org/t/p/"))) ∧
    (getTMDBImagesBaseUrlCall (fun _ => none) 0 none none
        (some (Json.obj [("images", Json.obj [("base_url",
          Json.str "http://image.tmdb.org/t/p/")])])) true 0).tmdbImagesBaseUrl =
      some (Json.str "http://image.tmdb.org/t/p/") := by
  have h := c6_baseUrl_singleton (fun _ => none) 0 none
    (some (Json.obj [("images", Json.obj [("base_url",
      Json.str "http://image.tmdb.org/t/p/")])])) true 0
  refine ⟨h.1 (Json.str "http://image.tmdb.org/t/p/"), ?_⟩
  exact (h.2 (Json.obj [("images", Json.obj [("base_url",
      Json.str "http://image.tmdb.org/t/p/")])])
    (Json.obj [("base_url", Json.str "http://image.tmdb.org/t/p/")])
    (Json.str "http://image.tmdb.org/t/p/") rfl rfl rfl).1

/-! ### C10: a failed first configuration resolution rejects with undefined -/

/-- C10: when the singleton is unset and getAPIConfiguration rejects,
getTMDBImagesBaseUrl rejects with the current (undefined) value of
tmdbImagesBaseUrl rather than the underlying error, and the dependent
poster fetch observes exactly that undefined rejection reason. -/
theorem c10_config_failure_rejects_undefined (fs : FS) (now : Int) (e : String)
    (netData : Option Json) (writeOk : Bool) (writeTime : Int)
    (posterNet : String → NetResult) (downloadTime : Int) (posterFileName size : String)
    (hfail : (getAPIConfigurationCall fs now (some e) netData writeOk writeTime).settle =
      .rejected (.jsError e)) :
    (getTMDBImagesBaseUrlCall fs now none (some e) netData writeOk writeTime).settle =
      .rejected .undef ∧
    (fetchAndSaveMoviePosterCall fs now none (some e) netData writeOk writeTime posterNet
        downloadTime posterFileName size).settle = .rejected .undef ∧
    JsValue.undef ≠ JsValue.jsError e := by
  have h1 : (getTMDBImagesBaseUrlCall fs now none (some e) netData writeOk writeTime).settle =
      .rejected .undef := by
    simp only [getTMDBImagesBaseUrlCall]
    rw [hfail]
    show firstSettle ((Effect.consoleLog :: ioEvents
      (getAPIConfigurationCall fs now (some e) netData writeOk writeTime).trace) ++
        [Effect.rejectCall JsValue.undef]) = .rejected .undef
    rw [List.cons_append, firstSettle_skip _ _ (by simp [Effect.isSettleCall]),
      firstSettle_ioEvents_append]
    rfl
  refine ⟨h1, ?_, ?_⟩
  · simp only [fetchAndSaveMoviePosterCall]
    rw [h1]
    show firstSettle (ioEvents
      (getTMDBImagesBaseUrlCall fs now none (some e) netData writeOk writeTime).trace ++
        [Effect.rejectCall JsValue.undef]) = .rejected .undef
    rw [firstSettle_ioEvents_append]
    rfl
  · intro h
    exact JsValue.noConfusion h

theorem c10_config_failure_rejects_undefined_witness :
    (getTMDBImagesBaseUrlCall (fun _ => none) 0 none (some "boom") none true 0).settle =
      .rejected .undef ∧
    (fetchAndSaveMoviePosterCall (fun _ => none) 0 none (some "boom") none true 0
        (fun _ => NetResult.resp 200) 0 "/poster.jpg" "original").settle =
      .rejected .undef ∧
    JsValue.undef ≠ JsValue.jsError "boom" :=
  c10_config_failure_rejects_undefined (fun _ => none) 0 "boom" none true 0
    (fun _ => NetResult.resp 200) 0 "/poster.jpg" "original" rfl

/-! ### C7: batch independence -/

/-- C7: the driver loop attempts resolution for every post that
carries an identifier, whatever any resolution's outcome is; the
processing of one post depends only on its own metadata and its own
metadata promise's outcome; and poster outcomes (which the driver
discards without attaching handlers) affect no post's processing. -/
theorem c7_batch_independence (infoS1 infoS2 posterS1 posterS2 : String → Settle)
    (posts : List RawPost) :
    (processBatch infoS1 posterS1 posts).length = posts.length ∧
    ((processBatch infoS1 posterS1 posts).map (fun o => o.infoAttempted) =
      posts.map (fun p => (getMetaValue "tmdb_id" p.postmeta).isSome)) ∧
    processBatch infoS1 posterS1 posts = processBatch infoS1 posterS2 posts ∧
    (∀ (p : RawPost) (tmdb_id : String),
      getMetaValue "tmdb_id" p.postmeta = some tmdb_id →
      infoS1 tmdb_id = infoS2 tmdb_id →
      processPost infoS1 posterS1 p = processPost infoS2 posterS2 p) := by
  refine ⟨?_, ?_, ?_, ?_⟩
  · induction posts with
    | nil => rfl
    | cons p rest ih => simp [processBatch, ih]
  · induction posts with
    | nil => rfl
    | cons p rest ih =>
      simp only [processBatch, List.map_cons, ih, List.cons.injEq, and_true]
      cases hm : getMetaValue "tmdb_id" p.postmeta with
      | none => simp [processPost, hm]
      | some tmdb_id =>
        cases h2 : infoS1 tmdb_id <;> simp [processPost, hm, h2]
  · induction posts with
    | nil => rfl
    | cons p rest ih =>
      simp only [processBatch, ih, List.cons.injEq, and_true]
      rfl
  · intro p tmdb_id hm hs
    simp [processPost, hm, hs]

theorem c7_batch_independence_witness :
    getMetaValue "tmdb_id" [("tmdb_id", "603")] = some "603" ∧
    processPost (fun _ => Settle.resolved (JsValue.json Json.null)) (fun _ => Settle.pending)
        (RawPost.mk [("tmdb_id", "603")]) =
      processPost (fun i => if i = "603" then Settle.resolved (JsValue.json Json.null)
        else Settle.rejected JsValue.undef) (fun _ => Settle.rejected JsValue.undef)
        (RawPost.mk [("tmdb_id", "603")]) :=
  ⟨rfl,
    (c7_batch_independence (fun _ => Settle.resolved (JsValue.json Json.null))
      (fun i => if i = "603" then Settle.resolved (JsValue.json Json.null)
        else Settle.rejected JsValue.undef)
      (fun _ => Settle.pending) (fun _ => Settle.rejected JsValue.undef)
      [RawPost.mk [("tmdb_id", "603")]]).2.2.2
    (RawPost.mk [("tmdb_id", "603")]) "603" rfl rfl⟩

end ConvertWP
